import Mathlib

/-!
Shallow embedding of `glicko2.py` (Glicko-2 rating system) over the reals,
together with theorems checking the natural-language specification against it.

Python floats are modelled as real numbers; Python exceptions
(`ZeroDivisionError` from `1 / 0`, `IndexError` from an out-of-range list
access) are modelled by an explicit error result carrying the competitor state
at the moment the exception is raised; the two unbounded `while` loops of the
volatility solver are modelled with an explicit fuel parameter, `none`
standing for "the loop has not exited within `fuel` iterations".
-/

open Classical

noncomputable section

namespace Glicko2

/-- Scale factor between the public rating scale and the internal scale,
`SCALE = 173.7178` in the source. -/
def SCALE : ℝ := 173.7178

/-- Conversion `rating_to_mu(rating) = (rating - 1500) / SCALE`. -/
def rating_to_mu (rating : ℝ) : ℝ := (rating - 1500) / SCALE

/-- Conversion `mu_to_rating(mu) = mu * SCALE + 1500`. -/
def mu_to_rating (mu : ℝ) : ℝ := mu * SCALE + 1500

/-- Conversion `rd_to_phi(rd) = rd / SCALE`. -/
def rd_to_phi (rd : ℝ) : ℝ := rd / SCALE

/-- Conversion `phi_to_rd(phi) = phi * SCALE`. -/
def phi_to_rd (phi : ℝ) : ℝ := phi * SCALE

/-- The class attribute `Player._tau = 0.5` of the source. -/
def tau : ℝ := 0.5

/-- Internal state of a `Player`: centered rating `mu`, centered deviation
`phi`, and volatility `vol` (the volatility needs no conversion). -/
structure Player where
  mu : ℝ
  phi : ℝ
  vol : ℝ

/-- Constructor `Player.__init__(rating, rd, vol)`: stores `vol` directly and
routes `rating`/`rd` through the scale conversions. -/
def Player.mk0 (rating rd vol : ℝ) : Player :=
  { mu := rating_to_mu rating, phi := rd_to_phi rd, vol := vol }

/-- Freshly constructed player with the source's default arguments
`rating=1500, rd=350, vol=0.06`. -/
def Player.default : Player := Player.mk0 1500 350 0.06

/-- Property read `Player.rating`, i.e. `getRating`. -/
def Player.rating (p : Player) : ℝ := mu_to_rating p.mu

/-- Property read `Player.rd`, i.e. `getRd`. -/
def Player.rd (p : Player) : ℝ := phi_to_rd p.phi

/-- The source's `Player._g(RD) = 1 / sqrt(1 + 3*RD^2 / pi^2)` (it reads no
instance state). -/
def g (RD : ℝ) : ℝ := 1 / Real.sqrt (1 + 3 * RD ^ 2 / Real.pi ^ 2)

/-- The source's `Player._E(p2mu, p2phi)`, with the player's `self.mu`
passed explicitly as the first argument:
`1 / (1 + exp(-1 * g(p2phi) * (mu - p2mu)))`. -/
def E (mu p2mu p2phi : ℝ) : ℝ :=
  1 / (1 + Real.exp (-1 * g p2phi * (mu - p2mu)))

/-- The source's `Player._preRatingRD`: `phi <- sqrt(phi^2 + vol^2)`. -/
def Player.preRatingRD (p : Player) : Player :=
  { p with phi := Real.sqrt (p.phi ^ 2 + p.vol ^ 2) }

/-- The source's `Player.did_not_compete`, which just calls `_preRatingRD`. -/
def Player.did_not_compete (p : Player) : Player := p.preRatingRD

/-- The source's `Player.win_prob(other)`:
`1 / (1 + exp(-1 * g(sqrt(self.phi^2 + other.phi^2)) * (self.mu - other.mu)))`. -/
def Player.win_prob (p other : Player) : ℝ :=
  1 / (1 + Real.exp (-1 * g (Real.sqrt (p.phi ^ 2 + other.phi ^ 2)) *
    (p.mu - other.mu)))

/-- The source's `Player._f(x, delta, v, a)`.  Note that the body reads
`self.mu` (the centered *rating*) where the published Glicko-2 formula has
`phi` (the centered deviation):
`exp(x)*(delta^2 - mu^2 - v - exp(x)) / (2*(mu^2 + v + exp(x))^2) - (x-a)/tau^2`. -/
def Player.f (p : Player) (x delta v a : ℝ) : ℝ :=
  let ex := Real.exp x
  let num1 := ex * (delta ^ 2 - p.mu ^ 2 - v - ex)
  let denom1 := 2 * ((p.mu ^ 2 + v + ex) ^ 2)
  num1 / denom1 - (x - a) / tau ^ 2

/-- Terms of the accumulation loop of `Player._v`: the loop runs over
`range(len(rating_list))` and indexes `RD_list[i]`, so a too-short `RD_list`
raises `IndexError` (modelled by `none`) while surplus entries of `RD_list`
are ignored. -/
def vTerms (mu : ℝ) : List ℝ → List ℝ → Option (List ℝ)
  | [], _ => some []
  | r :: rs, d :: ds =>
    (vTerms mu rs ds).map
      (fun ts => g d ^ 2 * E mu r d * (1 - E mu r d) :: ts)
  | _ :: _, [] => none

/-- Terms of the accumulation loops of `Player._delta` and of the tail of
`update_player`: the loop runs over `range(len(rating_list))` and indexes
`RD_list[i]` and `outcome_list[i]`, so a too-short `RD_list` or
`outcome_list` raises `IndexError` (modelled by `none`). -/
def gameTerms (mu : ℝ) : List ℝ → List ℝ → List ℝ → Option (List ℝ)
  | [], _, _ => some []
  | r :: rs, d :: ds, o :: os =>
    (gameTerms mu rs ds os).map (fun ts => g d * (o - E mu r d) :: ts)
  | _ :: _, _, _ => none

/-- Exceptions the source can actually raise inside `update_player`:
`IndexError` from a too-short list, `ZeroDivisionError` from `1 / tempSum`
with a zero sum in `Player._v`. -/
inductive Err where
  | index : Err
  | zeroDiv : Err
deriving DecidableEq

/-- The source's `Player._v(rating_list, RD_list)`:
`1 / sum_i(g(RD_i)^2 * E_i * (1 - E_i))`, raising `ZeroDivisionError` when
the sum is zero (in particular on an empty list). -/
def Player.v (p : Player) (rating_list RD_list : List ℝ) : Except Err ℝ :=
  match vTerms p.mu rating_list RD_list with
  | none => .error .index
  | some ts => if ts.sum = 0 then .error .zeroDiv else .ok (1 / ts.sum)

/-- The source's `Player._delta(rating_list, RD_list, outcome_list, v)`:
`v * sum_i(g(RD_i) * (outcome_i - E_i))`. -/
def Player.delta (p : Player) (rating_list RD_list outcome_list : List ℝ)
    (v : ℝ) : Except Err ℝ :=
  match gameTerms p.mu rating_list RD_list outcome_list with
  | none => .error .index
  | some ts => .ok (v * ts.sum)

/-- The bracket search of step 2 of `Player._newVol`: starting from `k`,
increment `k` while `f(a - k*sqrt(tau^2)) < 0`, and return the first `k`
whose `f` value is nonnegative.  The source's loop is unbounded; `fuel`
counts remaining condition checks and `none` means the loop has not exited
within `fuel` checks. -/
def bracketK (p : Player) (a delta v : ℝ) : ℕ → ℕ → Option ℕ
  | 0, _ => none
  | fuel + 1, k =>
    if p.f (a - k * Real.sqrt (tau ^ 2)) delta v a < 0 then
      bracketK p a delta v fuel (k + 1)
    else some k

/-- The regula-falsi refinement loop of step 4 of `Player._newVol`, on state
`(A, B, fA, fB)`: while `|B - A| > eps`, compute the secant point `C` and
either swap the bracket side (`fC * fB < 0`) or halve `fA` (the Illinois
modification), then shift `B` to `C`.  Returns the final `A`; the source's
loop is unbounded, so `none` models not exiting within `fuel` iterations. -/
def rfLoop (p : Player) (delta v a eps : ℝ) :
    ℕ → ℝ → ℝ → ℝ → ℝ → Option ℝ
  | 0, A, B, _, _ => if |B - A| > eps then none else some A
  | fuel + 1, A, B, fA, fB =>
    if |B - A| > eps then
      let C := A + (A - B) * fA / (fB - fA)
      let fC := p.f C delta v a
      if fC * fB < 0 then rfLoop p delta v a eps fuel B C fB fC
      else rfLoop p delta v a eps fuel A C (fA / 2) fC
    else some A

/-- Steps 1-5 of `Player._newVol` given the already-computed `delta` and `v`:
`a = log(vol^2)`, `eps = 1e-6`, `A = a`; `B` from the branch on
`delta^2 > phi^2 + v` or from the bracket search; then the refinement loop,
and finally `exp(A/2)`.  `none` models one of the two unbounded loops not
having exited within `fuel` iterations. -/
def Player.newVolCore (p : Player) (fuel : ℕ) (delta v : ℝ) : Option ℝ :=
  let a := Real.log (p.vol ^ 2)
  let eps : ℝ := 0.000001
  let A := a
  let Bopt : Option ℝ :=
    if delta ^ 2 > p.phi ^ 2 + v then
      some (Real.log (delta ^ 2 - p.phi ^ 2 - v))
    else
      (bracketK p a delta v fuel 1).map (fun k => a - k * Real.sqrt (tau ^ 2))
  match Bopt with
  | none => none
  | some B =>
    (rfLoop p delta v a eps fuel A B (p.f A delta v a) (p.f B delta v a)).map
      (fun A => Real.exp (A / 2))

/-- The source's `Player._newVol(rating_list, RD_list, outcome_list, v)`:
computes `delta` via `_delta` (whose `IndexError` propagates) and then runs
the solver core. -/
def Player.newVol (p : Player) (fuel : ℕ)
    (rating_list RD_list outcome_list : List ℝ) (v : ℝ) :
    Except Err (Option ℝ) :=
  match gameTerms p.mu rating_list RD_list outcome_list with
  | none => .error .index
  | some dts => .ok (p.newVolCore fuel (v * dts.sum) v)

/-- Result of a call to `update_player`: normal return with the final state,
an exception carrying the state at the moment it is raised, or (for the
fueled solver loops) no exit within the fuel budget, carrying the state the
player still has while the loop spins. -/
inductive ExecResult where
  | ok : Player → ExecResult
  | err : Err → Player → ExecResult
  | hang : Player → ExecResult

/-- Whether an execution result is a raised exception. -/
def ExecResult.isErr : ExecResult → Bool
  | .err _ _ => true
  | _ => false

/-- The source's `Player.update_player(rating_list, RD_list, outcome_list)`:
convert the opponent lists, compute `v` (possible `IndexError` or
`ZeroDivisionError`), compute the new volatility with the solver (possible
`IndexError` from `_delta`; the loops may spin), assign it, widen `phi` via
`_preRatingRD`, combine with the evidence, and finally move `mu` by
`phi^2` times the re-accumulated improvement sum. -/
def Player.update_player (p : Player) (fuel : ℕ)
    (rating_list RD_list outcome_list : List ℝ) : ExecResult :=
  let rl := rating_list.map rating_to_mu
  let dl := RD_list.map rd_to_phi
  match vTerms p.mu rl dl with
  | none => .err .index p
  | some ts =>
    if ts.sum = 0 then .err .zeroDiv p
    else
      let v := 1 / ts.sum
      match gameTerms p.mu rl dl outcome_list with
      | none => .err .index p
      | some dts =>
        match p.newVolCore fuel (v * dts.sum) v with
        | none => .hang p
        | some vol' =>
          let p1 : Player := { p with vol := vol' }
          let p2 := p1.preRatingRD
          let p3 : Player := { p2 with phi := 1 / Real.sqrt (1 / p2.phi ^ 2 + 1 / v) }
          match gameTerms p3.mu rl dl outcome_list with
          | none => .err .index p3
          | some dts' => .ok { p3 with mu := p3.mu + p3.phi ^ 2 * dts'.sum }

/-- Spec-side formula for `f` written from the specification's words, with
`phi^2` (the competitor's pre-widening centered deviation squared) as the
squared term:
`exp(x)*(delta^2 - phi^2 - v - exp(x)) / (2*(phi^2 + v + exp(x))^2) - (x-a)/tau^2`. -/
def fSpecPhi (phi x delta v a : ℝ) : ℝ :=
  Real.exp x * (delta ^ 2 - phi ^ 2 - v - Real.exp x) /
    (2 * ((phi ^ 2 + v + Real.exp x) ^ 2)) - (x - a) / tau ^ 2

/-- Spec-side formula for `f` amended to use `mu^2` (the competitor's
centered rating squared) as the squared term, matching the source. -/
def fSpecMu (mu x delta v a : ℝ) : ℝ :=
  Real.exp x * (delta ^ 2 - mu ^ 2 - v - Real.exp x) /
    (2 * ((mu ^ 2 + v + Real.exp x) ^ 2)) - (x - a) / tau ^ 2

/-! ## Helper lemmas about the aggregation loops -/

/-- Zip of the three parallel opponent lists into one list of game triples. -/
def zip3 : List ℝ → List ℝ → List ℝ → List (ℝ × ℝ × ℝ)
  | r :: rs, d :: ds, o :: os => (r, d, o) :: zip3 rs ds os
  | _, _, _ => []

/-- Spec-side variance aggregation sum `sum_i(g(phi_i)^2 * E_i * (1 - E_i))`
over a period's (opponent mu, opponent phi) pairs. -/
def vSpecSum (mu : ℝ) (gs : List (ℝ × ℝ)) : ℝ :=
  (gs.map fun t => g t.2 ^ 2 * E mu t.1 t.2 * (1 - E mu t.1 t.2)).sum

/-- Spec-side improvement sum `sum_i(g(phi_i) * (score_i - E_i))` over a
period's (opponent mu, opponent phi, score) triples. -/
def improveSum (mu : ℝ) (gs : List (ℝ × ℝ × ℝ)) : ℝ :=
  (gs.map fun t => g t.2.1 * (t.2.2 - E mu t.1 t.2.1)).sum

lemma vTerms_sum (mu : ℝ) :
    ∀ (rl dl ts : List ℝ), vTerms mu rl dl = some ts →
      ts.sum = vSpecSum mu (rl.zip dl)
  | [], dl, ts, h => by
    simp only [vTerms, Option.some.injEq] at h
    subst h
    cases dl <;> simp [vSpecSum]
  | r :: rs, [], ts, h => by simp [vTerms] at h
  | r :: rs, d :: ds, ts, h => by
    simp only [vTerms, Option.map_eq_some'] at h
    obtain ⟨ts', h1, h2⟩ := h
    subst h2
    simp [vSpecSum, vTerms_sum mu rs ds ts' h1, List.zip_cons_cons]

lemma gameTerms_sum (mu : ℝ) :
    ∀ (rl dl ol ts : List ℝ), gameTerms mu rl dl ol = some ts →
      ts.sum = improveSum mu (zip3 rl dl ol)
  | [], dl, ol, ts, h => by
    simp only [gameTerms, Option.some.injEq] at h
    subst h
    cases dl <;> cases ol <;> simp [improveSum, zip3]
  | r :: rs, [], ol, ts, h => by simp [gameTerms] at h
  | r :: rs, d :: ds, [], ts, h => by simp [gameTerms] at h
  | r :: rs, d :: ds, o :: os, ts, h => by
    simp only [gameTerms, Option.map_eq_some'] at h
    obtain ⟨ts', h1, h2⟩ := h
    subst h2
    simp [improveSum, zip3, gameTerms_sum mu rs ds os ts' h1]

lemma vTerms_map (mu : ℝ) (f k : ℝ × ℝ × ℝ → ℝ) (l : List (ℝ × ℝ × ℝ)) :
    vTerms mu (l.map f) (l.map k) =
      some (l.map fun t =>
        g (k t) ^ 2 * E mu (f t) (k t) * (1 - E mu (f t) (k t))) := by
  induction l with
  | nil => simp [vTerms]
  | cons t ts ih => simp [vTerms, ih]

lemma gameTerms_map (mu : ℝ) (f k m : ℝ × ℝ × ℝ → ℝ)
    (l : List (ℝ × ℝ × ℝ)) :
    gameTerms mu (l.map f) (l.map k) (l.map m) =
      some (l.map fun t => g (k t) * (m t - E mu (f t) (k t))) := by
  induction l with
  | nil => simp [gameTerms]
  | cons t ts ih => simp [gameTerms, ih]

lemma gameTerms_isSome_congr (mu1 mu2 : ℝ) :
    ∀ (rl dl ol : List ℝ),
      (gameTerms mu1 rl dl ol).isSome = (gameTerms mu2 rl dl ol).isSome
  | [], _, _ => by simp [gameTerms]
  | r :: rs, [], ol => by simp [gameTerms]
  | r :: rs, d :: ds, [] => by simp [gameTerms]
  | r :: rs, d :: ds, o :: os => by
    simp [gameTerms, gameTerms_isSome_congr mu1 mu2 rs ds os]

/-! ## Claim theorems -/

/-- C8: the public/internal scale conversions are exact inverse bijections
with no clamping: `mu_to_rating (rating_to_mu r) = r` and
`phi_to_rd (rd_to_phi d) = d` for every real input, and likewise in the
other direction. -/
theorem scale_roundtrip :
    (∀ r : ℝ, mu_to_rating (rating_to_mu r) = r) ∧
    (∀ m : ℝ, rating_to_mu (mu_to_rating m) = m) ∧
    (∀ d : ℝ, phi_to_rd (rd_to_phi d) = d) ∧
    (∀ x : ℝ, rd_to_phi (phi_to_rd x) = x) := by
  have hS : (SCALE : ℝ) ≠ 0 := by norm_num [SCALE]
  refine ⟨fun r => ?_, fun m => ?_, fun d => ?_, fun x => ?_⟩ <;>
    · simp only [mu_to_rating, rating_to_mu, phi_to_rd, rd_to_phi]
      field_simp

/-- C9: a freshly constructed competitor with the default parameters
(rating 1500, deviation 350, volatility 0.06) predicts probability `1/2` of
beating an identically constructed default competitor (itself included). -/
theorem default_self_win_prob :
    Player.default.win_prob Player.default = 1 / 2 := by
  simp [Player.win_prob, Player.default, Player.mk0, sub_self, mul_zero,
    Real.exp_zero]
  norm_num

/-- C10: the outcome predictor is complementary under swapping the two
competitors: `win_prob A B + win_prob B A = 1`, because the combined
deviation term is symmetric while the rating difference negates. -/
theorem win_prob_complement (A B : Player) :
    A.win_prob B + B.win_prob A = 1 := by
  unfold Player.win_prob
  rw [show B.phi ^ 2 + A.phi ^ 2 = A.phi ^ 2 + B.phi ^ 2 by ring]
  set s := g (Real.sqrt (A.phi ^ 2 + B.phi ^ 2)) with hs
  rw [show -1 * s * (B.mu - A.mu) = -(-1 * s * (A.mu - B.mu)) by ring,
    Real.exp_neg]
  have hu : 0 < Real.exp (-1 * s * (A.mu - B.mu)) := Real.exp_pos _
  have h1 : (1 : ℝ) + Real.exp (-1 * s * (A.mu - B.mu)) ≠ 0 := by positivity
  have h3 : (1 : ℝ) + (Real.exp (-1 * s * (A.mu - B.mu)))⁻¹ ≠ 0 := by
    positivity
  field_simp
  ring

/-- C7: `win_prob A B` is exactly
`1 / (1 + exp(-g(sqrt(A.phi^2 + B.phi^2)) * (A.mu - B.mu)))` — the combined
deviation of both competitors — and lies strictly between 0 and 1.
The embedding of `win_prob` is a pure function of the two states, matching
the read-only contract of the source. -/
theorem win_prob_spec (A B : Player) (_hA : 0 < A.phi) (_hB : 0 < B.phi) :
    A.win_prob B =
      1 / (1 + Real.exp (-(g (Real.sqrt (A.phi ^ 2 + B.phi ^ 2)) *
        (A.mu - B.mu)))) ∧
    0 < A.win_prob B ∧ A.win_prob B < 1 := by
  refine ⟨by simp [Player.win_prob, neg_mul], ?_, ?_⟩
  · unfold Player.win_prob
    positivity
  · unfold Player.win_prob
    rw [div_lt_one (by positivity)]
    have := Real.exp_pos (-1 * g (Real.sqrt (A.phi ^ 2 + B.phi ^ 2)) *
      (A.mu - B.mu))
    linarith

/-- Witness for C7 at two default competitors. -/
theorem win_prob_spec_witness :
    Player.default.win_prob Player.default =
      1 / (1 + Real.exp (-(g (Real.sqrt (Player.default.phi ^ 2 +
        Player.default.phi ^ 2)) *
        (Player.default.mu - Player.default.mu)))) ∧
    0 < Player.default.win_prob Player.default ∧
    Player.default.win_prob Player.default < 1 :=
  win_prob_spec Player.default Player.default
    (by norm_num [Player.default, Player.mk0, rd_to_phi, SCALE])
    (by norm_num [Player.default, Player.mk0, rd_to_phi, SCALE])

/-- C5: `did_not_compete` (decay) sets the public deviation to
`sqrt(phi^2 + vol^2)` rescaled to the public scale, strictly increases it
(for positive deviation and volatility), and leaves rating and volatility
unchanged. -/
theorem did_not_compete_spec (p : Player) (hphi : 0 < p.phi)
    (hvol : 0 < p.vol) :
    p.did_not_compete.rd = Real.sqrt (p.phi ^ 2 + p.vol ^ 2) * SCALE ∧
    p.rd < p.did_not_compete.rd ∧
    p.did_not_compete.rating = p.rating ∧
    p.did_not_compete.vol = p.vol := by
  refine ⟨rfl, ?_, rfl, rfl⟩
  show p.phi * SCALE < Real.sqrt (p.phi ^ 2 + p.vol ^ 2) * SCALE
  have hS : (0 : ℝ) < SCALE := by norm_num [SCALE]
  have h1 : p.phi < Real.sqrt (p.phi ^ 2 + p.vol ^ 2) := by
    nth_rewrite 1 [← Real.sqrt_sq hphi.le]
    exact Real.sqrt_lt_sqrt (sq_nonneg _) (by nlinarith)
  exact mul_lt_mul_of_pos_right h1 hS

/-- Witness for C5 at the concrete state `(mu, phi, vol) = (0, 2, 1)`. -/
theorem did_not_compete_spec_witness :
    (Player.mk 0 2 1).did_not_compete.rd =
      Real.sqrt ((Player.mk 0 2 1).phi ^ 2 + (Player.mk 0 2 1).vol ^ 2) *
        SCALE ∧
    (Player.mk 0 2 1).rd < (Player.mk 0 2 1).did_not_compete.rd ∧
    (Player.mk 0 2 1).did_not_compete.rating = (Player.mk 0 2 1).rating ∧
    (Player.mk 0 2 1).did_not_compete.vol = (Player.mk 0 2 1).vol :=
  did_not_compete_spec (Player.mk 0 2 1) (by norm_num) (by norm_num)

/-- C1 counterexample: at the concrete state `mu = 1`, `phi = 2` and solver
arguments `x = 0`, `delta = 0`, `v = 1`, `a = 0`, the source's `f` differs
from the specification's formula built with `phi^2`: the source evaluates to
`-1/6` while the `phi^2` formula evaluates to `-1/12`. -/
theorem f_mu_vs_phi_counterexample :
    (Player.mk 1 2 0.06).f 0 0 1 0 ≠ fSpecPhi 2 0 0 1 0 := by
  unfold Player.f fSpecPhi tau
  simp only [Real.exp_zero]
  norm_num

/-- C1 (amended): the solver's `f` equals the specification's formula with
`mu^2` — the competitor's centered rating squared — in place of `phi^2`,
in both the numerator term and the squared denominator term. -/
theorem f_formula_uses_mu (p : Player) (x delta v a : ℝ) :
    p.f x delta v a = fSpecMu p.mu x delta v a := rfl

/-- C2: at a concrete solver input taking the bracket-search branch
(`delta = 0`, `v = 1` on the state `(mu, phi, vol) = (0, 1, 1)`), exhausting
the iteration budget produces the silent `none` — the source's loops have no
iteration cap and raise nothing; no ConvergenceError exists anywhere in the
source. -/
theorem newVol_budget_exceeded_silent :
    (Player.mk 0 1 1).newVolCore 0 0 1 = none := by
  simp only [Player.newVolCore]
  norm_num [bracketK]

/-- C3 (amended): the errors `update_player` actually raises — `IndexError`
from a too-short converted list and `ZeroDivisionError` from a zero variance
denominator (in particular an empty game list) — are raised before any
mutation, so the state carried at the moment of the raise is exactly the
pre-call state.  Scores themselves are never validated. -/
theorem update_error_preserves_state (fuel : ℕ) (p q : Player)
    (rating_list RD_list outcome_list : List ℝ) (e : Err)
    (h : p.update_player fuel rating_list RD_list outcome_list = .err e q) :
    q = p := by
  simp only [Player.update_player] at h
  split at h
  · cases h; rfl
  · next x1 ts hts =>
    split at h
    · cases h; rfl
    · split at h
      · cases h; rfl
      · next x2 dts hdts =>
        split at h
        · cases h
        · next x3 vol' hvol =>
          split at h
          · next x4 hnone =>
            exfalso
            simp only [Player.preRatingRD] at hnone
            rw [hdts] at hnone
            cases hnone
          · cases h

/-- Witness for C3's amended theorem: the empty game list raises
`ZeroDivisionError` with the competitor left exactly in its pre-call
state. -/
theorem update_error_preserves_state_witness :
    Player.default.update_player 5 [] [] [] =
      .err .zeroDiv Player.default ∧
    Player.default = Player.default := by
  have h : Player.default.update_player 5 [] [] [] =
      .err .zeroDiv Player.default := by
    simp [Player.update_player, vTerms]
  exact ⟨h, update_error_preserves_state 5 Player.default Player.default
    [] [] [] .zeroDiv h⟩

/-- C3 counterexample: a score of `7` — outside `{0, 0.5, 1}` — is an
erroneous input per the claim, yet the call detects no error at all: the
result of `update_player` on the default competitor with the single outcome
`(1500, 350, 7)` is never a raised error, for the concrete fuel `100`. -/
theorem invalid_score_not_detected :
    (Player.default.update_player 100 [1500] [350] [7]).isErr = false := by
  have hmu : Player.default.mu = 0 := by
    simp [Player.default, Player.mk0, rating_to_mu]
  have hE : E 0 (rating_to_mu 1500) (rd_to_phi 350) = 1 / 2 := by
    simp [E, rating_to_mu, sub_self, mul_zero, Real.exp_zero]
    norm_num
  have hg : 0 < g (rd_to_phi 350) := by
    unfold g
    positivity
  simp only [Player.update_player, List.map, hmu]
  simp only [vTerms, gameTerms, Option.map_some']
  split
  · next hzero =>
    exfalso
    rw [hE] at hzero
    simp at hzero
    rcases hzero with h0 | h0
    · exact absurd h0 hg.ne'
    · norm_num at h0
  · split
    · rfl
    · rfl

/-- C6: the update result does not depend on the order of the period's
games: for every permutation of the (opponent rating, opponent deviation,
score) triples, `update_player` produces the same result, because the
aggregations are pure sums. -/
theorem update_perm_invariant (fuel : ℕ) (p : Player)
    (l l' : List (ℝ × ℝ × ℝ)) (h : l.Perm l') :
    p.update_player fuel (l.map (·.1)) (l.map (·.2.1)) (l.map (·.2.2)) =
    p.update_player fuel (l'.map (·.1)) (l'.map (·.2.1)) (l'.map (·.2.2)) := by
  have key : ∀ F : ℝ × ℝ × ℝ → ℝ, (l.map F).sum = (l'.map F).sum :=
    fun F => (h.map F).sum_eq
  simp only [Player.update_player, List.map_map, vTerms_map, gameTerms_map,
    Player.preRatingRD, key]

/-- Witness for C6: swapping two concrete games leaves the update result
unchanged. -/
theorem update_perm_invariant_witness :
    Player.default.update_player 3 [1500, 1600] [350, 300] [1, 0] =
    Player.default.update_player 3 [1600, 1500] [300, 350] [0, 1] := by
  have h := update_perm_invariant 3 Player.default
    [((1500 : ℝ), (350 : ℝ), (1 : ℝ)), (1600, 300, 0)]
    [((1600 : ℝ), (300 : ℝ), (0 : ℝ)), (1500, 350, 1)]
    (List.Perm.swap _ _ _)
  simpa using h

/-- Spec-side estimated variance of §4.5:
`v = 1 / sum_i(g(phi_i)^2 * E_i * (1 - E_i))` over the converted opponent
lists, with every `E_i` at the competitor's pre-update `mu`. -/
def vOf (p : Player) (rating_list RD_list : List ℝ) : ℝ :=
  1 / vSpecSum p.mu ((rating_list.map rating_to_mu).zip
    (RD_list.map rd_to_phi))

/-- Spec-side improvement sum of §4.5/§4.7:
`sum_i(g(phi_i) * (score_i - E_i))` over the converted opponent lists, with
every `E_i` at the competitor's pre-update `mu`. -/
def impOf (p : Player) (rating_list RD_list outcome_list : List ℝ) : ℝ :=
  improveSum p.mu (zip3 (rating_list.map rating_to_mu)
    (RD_list.map rd_to_phi) outcome_list)

lemma g_zero : g 0 = 1 := by
  unfold g
  norm_num

lemma E_zero_zero_zero : E 0 0 0 = 1 / 2 := by
  unfold E
  rw [sub_self, mul_zero, Real.exp_zero]
  norm_num

lemma newVolCore_eval_concrete :
    (Player.mk 0 1 (Real.sqrt 95)).newVolCore 1 10 4 = some (Real.sqrt 95) := by
  have h95 : Real.sqrt 95 ^ 2 = 95 := Real.sq_sqrt (by norm_num)
  have h100 : (10 : ℝ) ^ 2 - 1 ^ 2 - 4 = 95 := by norm_num
  simp only [Player.newVolCore, h95]
  rw [if_pos (show (10 : ℝ) ^ 2 > 1 ^ 2 + 4 by norm_num)]
  rw [h100]
  dsimp only
  simp only [rfLoop, sub_self, abs_zero]
  rw [if_neg (show ¬ ((0 : ℝ) > 0.000001) by norm_num)]
  simp only [Option.map_some']
  rw [← Real.log_sqrt (by norm_num : (0 : ℝ) ≤ 95),
    Real.exp_log (Real.sqrt_pos.mpr (by norm_num))]

lemma update_eval_concrete :
    (Player.mk 0 1 (Real.sqrt 95)).update_player 1 [1500] [0] [3] =
      .ok (Player.mk (48 / 5) (Real.sqrt 96 / 5) (Real.sqrt 95)) := by
  have hr : rating_to_mu 1500 = 0 := by
    unfold rating_to_mu
    norm_num
  have hd : rd_to_phi 0 = 0 := by
    unfold rd_to_phi
    norm_num
  have h95 : Real.sqrt 95 ^ 2 = 95 := Real.sq_sqrt (by norm_num)
  have h96 : Real.sqrt 96 ^ 2 = 96 := Real.sq_sqrt (by norm_num)
  simp only [Player.update_player, List.map_cons, List.map_nil, hr, hd]
  simp only [vTerms, gameTerms, Option.map_some', g_zero, E_zero_zero_zero]
  norm_num [List.sum_cons, List.sum_nil]
  rw [newVolCore_eval_concrete]
  simp only [Player.preRatingRD]
  norm_num [E_zero_zero_zero, h95, h96]
  have h25 : Real.sqrt 25 = 5 := by
    rw [show (25 : ℝ) = 5 ^ 2 by norm_num,
      Real.sqrt_sq (by norm_num : (0 : ℝ) ≤ 5)]
  rw [h25]
  norm_num [div_pow, h96]

/-- C4: every successful `update_player` follows the pipeline of §4.7 in
order: the new volatility is the solver's output on the *pre-widening*
`phi` (the solver is run on the pre-call state `p`) with `delta = v * sum`
and `v` from the §4.5 aggregation; the new deviation satisfies
`phi_new = 1 / sqrt(1 / (phi^2 + vol_new^2) + 1 / v)`, i.e. widening with
the just-computed volatility before combining with the evidence; and the
new rating is `mu + phi_new^2 * sum_i(g(phi_i) * (s_i - E_i))` with every
`E_i` evaluated at the pre-update `mu`. -/
theorem update_pipeline_order (fuel : ℕ) (p q : Player)
    (rating_list RD_list outcome_list : List ℝ)
    (h : p.update_player fuel rating_list RD_list outcome_list = .ok q) :
    p.newVolCore fuel
        (vOf p rating_list RD_list * impOf p rating_list RD_list outcome_list)
        (vOf p rating_list RD_list) = some q.vol ∧
    q.phi = 1 / Real.sqrt (1 / (p.phi ^ 2 + q.vol ^ 2) +
      1 / vOf p rating_list RD_list) ∧
    q.mu = p.mu + q.phi ^ 2 * impOf p rating_list RD_list outcome_list := by
  simp only [Player.update_player] at h
  split at h
  · cases h
  · next x1 ts hts =>
    split at h
    · cases h
    · next hsum =>
      split at h
      · cases h
      · next x2 dts hdts =>
        split at h
        · cases h
        · next x3 vol' hvol =>
          split at h
          · cases h
          · next x4 dts' hdts' =>
            injection h with h
            subst h
            simp only [Player.preRatingRD] at hdts' ⊢
            have hv : ts.sum = vSpecSum p.mu
                ((rating_list.map rating_to_mu).zip
                  (RD_list.map rd_to_phi)) :=
              vTerms_sum p.mu _ _ _ hts
            have hi : dts.sum = improveSum p.mu
                (zip3 (rating_list.map rating_to_mu)
                  (RD_list.map rd_to_phi) outcome_list) :=
              gameTerms_sum p.mu _ _ _ _ hdts
            have hi' : dts'.sum = improveSum p.mu
                (zip3 (rating_list.map rating_to_mu)
                  (RD_list.map rd_to_phi) outcome_list) :=
              gameTerms_sum p.mu _ _ _ _ hdts'
            rw [hv, hi] at hvol
            refine ⟨hvol, ?_, ?_⟩
            · rw [Real.sq_sqrt (by positivity :
                (0 : ℝ) ≤ p.phi ^ 2 + vol' ^ 2), hv]
              rfl
            · rw [hi']
              rfl

/-- Witness for C4: a concrete successful update.  With the state
`(mu, phi, vol) = (0, 1, sqrt 95)` against a single opponent
`(rating 1500, RD 0, score 3)` the aggregation gives `v = 4`, `delta = 10`,
the solver's branch condition holds with `B = log 95 = a`, the refinement
loop exits immediately, and the update returns the state
`(48/5, sqrt 96 / 5, sqrt 95)`. -/
theorem update_pipeline_order_witness :
    (Player.mk 0 1 (Real.sqrt 95)).update_player 1 [1500] [0] [3] =
      .ok (Player.mk (48 / 5) (Real.sqrt 96 / 5) (Real.sqrt 95)) ∧
    ((Player.mk 0 1 (Real.sqrt 95)).newVolCore 1
        (vOf (Player.mk 0 1 (Real.sqrt 95)) [1500] [0] *
          impOf (Player.mk 0 1 (Real.sqrt 95)) [1500] [0] [3])
        (vOf (Player.mk 0 1 (Real.sqrt 95)) [1500] [0]) =
      some (Player.mk (48 / 5) (Real.sqrt 96 / 5) (Real.sqrt 95)).vol ∧
    (Player.mk (48 / 5) (Real.sqrt 96 / 5) (Real.sqrt 95)).phi =
      1 / Real.sqrt (1 / ((Player.mk 0 1 (Real.sqrt 95)).phi ^ 2 +
        (Player.mk (48 / 5) (Real.sqrt 96 / 5) (Real.sqrt 95)).vol ^ 2) +
        1 / vOf (Player.mk 0 1 (Real.sqrt 95)) [1500] [0]) ∧
    (Player.mk (48 / 5) (Real.sqrt 96 / 5) (Real.sqrt 95)).mu =
      (Player.mk 0 1 (Real.sqrt 95)).mu +
        (Player.mk (48 / 5) (Real.sqrt 96 / 5) (Real.sqrt 95)).phi ^ 2 *
          impOf (Player.mk 0 1 (Real.sqrt 95)) [1500] [0] [3]) := by
  have hOk : (Player.mk 0 1 (Real.sqrt 95)).update_player 1 [1500] [0] [3] =
      .ok (Player.mk (48 / 5) (Real.sqrt 96 / 5) (Real.sqrt 95)) :=
    update_eval_concrete
  exact ⟨hOk, update_pipeline_order 1 _ _ [1500] [0] [3] hOk⟩

end Glicko2

end
